import Mathlib

/-
Verification of the core components of the python-bots repository:
the per-guild music queue (bots/music/src/music/queue.py), the playback
driver (bots/music/src/music/audio.py), the TTL/LRU card cache
(bots/mtg-card-bot/src/mtg_card_bot/cache.py) and the duplicate
suppressor (bots/mtg-card-bot/src/mtg_card_bot/bot.py).

Python dicts are modelled as insertion-ordered association lists with
unique keys; timestamps (time.time()) are modelled as rationals passed
explicitly to each operation (a simulated clock).
-/

/-! ## Insertion-ordered dictionaries (Python dict) -/

/-- Lookup in an insertion-ordered association list (Python `d.get(k)` /
`k in d`). Returns the first binding of the key. -/
def dictLookup {α β : Type} [DecidableEq α] (k : α) : List (α × β) → Option β
  | [] => none
  | (k', v) :: rest => if k' = k then some v else dictLookup k rest

/-- Assignment `d[k] = v` in a Python dict: replaces the value in place
(keeping the key's position) if present, otherwise appends at the end. -/
def dictInsert {α β : Type} [DecidableEq α] (k : α) (v : β) :
    List (α × β) → List (α × β)
  | [] => [(k, v)]
  | (k', v') :: rest =>
    if k' = k then (k, v) :: rest else (k', v') :: dictInsert k v rest

/-- Deletion `del d[k]` in a Python dict: removes the first binding of the
key, if any. -/
def dictErase {α β : Type} [DecidableEq α] (k : α) :
    List (α × β) → List (α × β)
  | [] => []
  | (k', v') :: rest =>
    if k' = k then rest else (k', v') :: dictErase k rest

theorem dictLookup_eq_none_iff {α β : Type} [DecidableEq α] (k : α)
    (l : List (α × β)) : dictLookup k l = none ↔ ∀ p ∈ l, p.1 ≠ k := by
  induction l with
  | nil => simp [dictLookup]
  | cons p rest ih =>
    obtain ⟨k', v'⟩ := p
    by_cases h : k' = k
    · simp [dictLookup, h]
    · simp [dictLookup, h, ih]

theorem dictLookup_insert_self {α β : Type} [DecidableEq α] (k : α) (v : β)
    (l : List (α × β)) : dictLookup k (dictInsert k v l) = some v := by
  induction l with
  | nil => simp [dictInsert, dictLookup]
  | cons p rest ih =>
    obtain ⟨k', v'⟩ := p
    by_cases h : k' = k
    · simp [dictInsert, h, dictLookup]
    · simp [dictInsert, h, dictLookup, ih]

theorem dictInsert_append_of_not_mem {α β : Type} [DecidableEq α] (k : α)
    (v : β) (l : List (α × β)) (h : ∀ p ∈ l, p.1 ≠ k) :
    dictInsert k v l = l ++ [(k, v)] := by
  induction l with
  | nil => simp [dictInsert]
  | cons p rest ih =>
    obtain ⟨k', v'⟩ := p
    have hk : k' ≠ k := h (k', v') (List.mem_cons_self _ _)
    simp only [dictInsert, if_neg hk, List.cons_append]
    rw [ih]
    intro q hq
    exact h q (List.mem_cons_of_mem _ hq)

theorem dictInsert_length_present {α β : Type} [DecidableEq α] (k : α)
    (v w : β) (l : List (α × β)) (h : dictLookup k l = some w) :
    (dictInsert k v l).length = l.length := by
  induction l with
  | nil => simp [dictLookup] at h
  | cons p rest ih =>
    obtain ⟨k', v'⟩ := p
    by_cases hk : k' = k
    · simp [dictInsert, hk]
    · simp only [dictLookup, if_neg hk] at h
      simp [dictInsert, hk, ih h]

theorem dictInsert_length_absent {α β : Type} [DecidableEq α] (k : α)
    (v : β) (l : List (α × β)) (h : dictLookup k l = none) :
    (dictInsert k v l).length = l.length + 1 := by
  induction l with
  | nil => simp [dictInsert]
  | cons p rest ih =>
    obtain ⟨k', v'⟩ := p
    by_cases hk : k' = k
    · simp [dictLookup, hk] at h
    · simp only [dictLookup, if_neg hk] at h
      simp [dictInsert, hk, ih h]

theorem dictErase_length_present {α β : Type} [DecidableEq α] (k : α)
    (v : β) (l : List (α × β)) (h : dictLookup k l = some v) :
    (dictErase k l).length + 1 = l.length := by
  induction l with
  | nil => simp [dictLookup] at h
  | cons p rest ih =>
    obtain ⟨k', v'⟩ := p
    by_cases hk : k' = k
    · simp [dictErase, hk]
    · simp only [dictLookup, if_neg hk] at h
      simp [dictErase, hk, ih h]

theorem dictErase_sublist {α β : Type} [DecidableEq α] (k : α)
    (l : List (α × β)) : (dictErase k l).Sublist l := by
  induction l with
  | nil => simp [dictErase]
  | cons p rest ih =>
    obtain ⟨k', v'⟩ := p
    by_cases hk : k' = k
    · simp only [dictErase, if_pos hk]
      exact List.sublist_cons_self _ _
    · simp only [dictErase, if_neg hk]
      exact List.Sublist.cons₂ _ ih

theorem dictLookup_filter_none {α β : Type} [DecidableEq α] (k : α)
    (v : β) (p : α × β → Bool) (l : List (α × β))
    (hnd : (l.map Prod.fst).Nodup) (hl : dictLookup k l = some v)
    (hp : p (k, v) = false) : dictLookup k (l.filter p) = none := by
  induction l with
  | nil => simp [dictLookup] at hl
  | cons q rest ih =>
    obtain ⟨k', v'⟩ := q
    simp only [List.map_cons, List.nodup_cons] at hnd
    by_cases hk : k' = k
    · subst hk
      simp only [dictLookup, if_true, ite_true, eq_self_iff_true,
        Option.some.injEq] at hl
      subst hl
      have habs : dictLookup k' (rest.filter p) = none := by
        rw [dictLookup_eq_none_iff]
        intro q hq
        have : q ∈ rest := List.mem_of_mem_filter hq
        intro hqk
        exact hnd.1 (hqk ▸ List.mem_map_of_mem Prod.fst this)
      by_cases hpk : p (k', v') = true
      · rw [hp] at hpk
        exact absurd hpk (by simp)
      · have : p (k', v') = false := by
          cases hpv : p (k', v') with
          | false => rfl
          | true => exact absurd hpv hpk
        simp [List.filter_cons, this, habs]
    · simp only [dictLookup, if_neg hk] at hl
      by_cases hpv : p (k', v') = true
      · simp [List.filter_cons, hpv, dictLookup, hk, ih hnd.2 hl]
      · have : p (k', v') = false := by
          cases hq : p (k', v') with
          | false => rfl
          | true => exact absurd hq hpv
        simp [List.filter_cons, this, ih hnd.2 hl]

theorem dictLookup_filter_some {α β : Type} [DecidableEq α] (k : α)
    (v : β) (p : α × β → Bool) (l : List (α × β))
    (hl : dictLookup k l = some v) (hp : p (k, v) = true) :
    dictLookup k (l.filter p) = some v := by
  induction l with
  | nil => simp [dictLookup] at hl
  | cons q rest ih =>
    obtain ⟨k', v'⟩ := q
    by_cases hk : k' = k
    · subst hk
      simp only [dictLookup, if_true, ite_true, eq_self_iff_true,
        Option.some.injEq] at hl
      subst hl
      simp [List.filter_cons, hp, dictLookup]
    · simp only [dictLookup, if_neg hk] at hl
      by_cases hpv : p (k', v') = true
      · simp [List.filter_cons, hpv, dictLookup, hk, ih hl]
      · have : p (k', v') = false := by
          cases hq : p (k', v') with
          | false => rfl
          | true => exact absurd hq hpv
        simp [List.filter_cons, this, ih hl]

theorem mem_dictLookup_isSome {α β : Type} [DecidableEq α]
    (q : α × β) (l : List (α × β)) (h : q ∈ l) :
    ∃ v, dictLookup q.1 l = some v := by
  induction l with
  | nil => simp at h
  | cons p rest ih =>
    obtain ⟨k', v'⟩ := p
    by_cases hk : k' = q.1
    · exact ⟨v', by simp [dictLookup, hk]⟩
    · rcases List.mem_cons.mp h with h1 | h1
      · exact absurd (congrArg Prod.fst h1).symm hk
      · obtain ⟨v, hv⟩ := ih h1
        exact ⟨v, by simp [dictLookup, hk, hv]⟩

/-! ## Song and MusicQueue (bots/music/src/music/models.py, queue.py) -/

/-- A song in the music queue (models.Song). -/
structure Song where
  title : String
  url : String
  webpage_url : String := ""
  duration : Option Nat := none
  requester_id : String := ""
  requester_name : String := ""
deriving DecidableEq, Repr

/-- Per-guild music queue state (queue.MusicQueue): pending songs, the
current song, and the playing/paused/skip flags. -/
structure MusicQueue where
  songs : List Song
  current : Option Song
  is_playing : Bool
  is_paused : Bool
  should_skip : Bool
deriving DecidableEq, Repr

/-- A freshly initialized MusicQueue. -/
def MusicQueue.init : MusicQueue :=
  { songs := [], current := none, is_playing := false, is_paused := false,
    should_skip := false }

/-- MusicQueue.add: append the song and return its zero-based position. -/
def MusicQueue.add (q : MusicQueue) (s : Song) : MusicQueue × Nat :=
  ({ q with songs := q.songs ++ [s] }, (q.songs ++ [s]).length - 1)

/-- MusicQueue.next: return and remove the next (front) song, if any. -/
def MusicQueue.next (q : MusicQueue) : Option Song × MusicQueue :=
  match q.songs with
  | [] => (none, q)
  | s :: rest => (some s, { q with songs := rest })

/-- MusicQueue.set_current. -/
def MusicQueue.set_current (q : MusicQueue) (s : Option Song) : MusicQueue :=
  { q with current := s }

/-- MusicQueue.set_playing. -/
def MusicQueue.set_playing (q : MusicQueue) (b : Bool) : MusicQueue :=
  { q with is_playing := b }

/-- MusicQueue.set_skip. -/
def MusicQueue.set_skip (q : MusicQueue) (b : Bool) : MusicQueue :=
  { q with should_skip := b }

/-- MusicQueue.is_empty. -/
def MusicQueue.is_empty (q : MusicQueue) : Bool :=
  q.songs.length = 0

/-- MusicQueue.clear: drop all pending songs and reset all state. -/
def MusicQueue.clear (q : MusicQueue) : MusicQueue :=
  { q with
    songs := [], current := none, is_playing := false,
    is_paused := false, should_skip := false }

/-- Enqueue a whole list of songs in order (repeated MusicQueue.add,
discarding the returned positions). -/
def MusicQueue.addAll (q : MusicQueue) (l : List Song) : MusicQueue :=
  l.foldl (fun q s => (q.add s).1) q

/-- Perform n advance (next) calls, collecting the returned songs. -/
def MusicQueue.drain : Nat → MusicQueue → List (Option Song) × MusicQueue
  | 0, q => ([], q)
  | n + 1, q =>
    let r := q.next
    let rs := MusicQueue.drain n r.2
    (r.1 :: rs.1, rs.2)

theorem MusicQueue.addAll_songs (l : List Song) :
    ∀ q : MusicQueue, (q.addAll l) = { q with songs := q.songs ++ l } := by
  induction l with
  | nil => intro q; simp [MusicQueue.addAll]
  | cons s rest ih =>
    intro q
    simp only [MusicQueue.addAll, List.foldl_cons] at *
    rw [ih]
    simp [MusicQueue.add]

theorem MusicQueue.drain_all (l : List Song) :
    ∀ q : MusicQueue, q.songs = l →
      q.drain l.length = (l.map some, { q with songs := [] }) := by
  induction l with
  | nil =>
    intro q hq
    have hq2 : { q with songs := ([] : List Song) } = q := by
      cases q
      simp_all
    simp [MusicQueue.drain, hq2]
  | cons s rest ih =>
    intro q hq
    simp only [List.length_cons, MusicQueue.drain, MusicQueue.next, hq]
    rw [ih { q with songs := rest } rfl]
    simp

/-- C3: enqueueing N songs into a fresh queue and then advancing N times
returns exactly those songs in insertion order (strict FIFO); afterwards
the pending sequence is empty and a further advance returns absent. -/
theorem musicQueue_fifo_order (l : List Song) :
    ((MusicQueue.init.addAll l).drain l.length).1 = l.map some ∧
    ((MusicQueue.init.addAll l).drain l.length).2.songs = [] ∧
    (((MusicQueue.init.addAll l).drain l.length).2.next).1 = none := by
  have h : (MusicQueue.init.addAll l).songs = l := by
    rw [MusicQueue.addAll_songs]
    simp [MusicQueue.init]
  rw [MusicQueue.drain_all l _ h]
  simp [MusicQueue.next]

/-- C6: MusicQueue.clear, from any state whatsoever, leaves an empty
pending sequence, no current song, and all three flags false. -/
theorem musicQueue_clear_resets (q : MusicQueue) :
    q.clear.songs = [] ∧ q.clear.current = none ∧
    q.clear.is_playing = false ∧ q.clear.is_paused = false ∧
    q.clear.should_skip = false := by
  simp [MusicQueue.clear]

/-! ## The playback driver (bots/music/src/music/audio.py, play_next)

The external collaborators are abstracted by two oracles: `connected`
(what voice_client.is_connected() reports) and `srcOk` (whether
_create_audio_source succeeds for a given song). -/

/-- AudioPlayer.play_next. Mirrors the control flow of audio.py:
empty queue stops playback; otherwise the next song is popped and bound
as current with the playing flag set and the skip flag cleared; a
disconnected voice client clears current/playing and returns; a failed
audio-source creation clears current/playing and recurses; on success
the source is handed to voice_client.play and the state is left bound
to the popped song. -/
def playNext (connected : Bool) (srcOk : Song → Bool) (q : MusicQueue) :
    MusicQueue :=
  match hq : q.songs with
  | [] => (q.set_playing false).set_current none
  | s :: rest =>
    let q1 := ((({ q with songs := rest } : MusicQueue).set_current
      (some s)).set_playing true).set_skip false
    if connected = false then
      (q1.set_current none).set_playing false
    else if srcOk s then
      q1
    else
      playNext connected srcOk ((q1.set_current none).set_playing false)
termination_by q.songs.length
decreasing_by simp [hq, MusicQueue.set_current, MusicQueue.set_playing,
  MusicQueue.set_skip]

/-- Two concrete songs used in counterexample states. -/
def songA : Song :=
  { title := "a", url := "https://youtube.com/watch?v=a" }

/-- Second concrete song. -/
def songB : Song :=
  { title := "b", url := "https://youtube.com/watch?v=b" }

/-- C1 counterexample: with two pending songs and a voice client that
reports it is not connected, play_next clears current/playing but does
NOT invoke play_next again: the second song is never attempted and stays
pending, contradicting the claim that the driver recurses (which would
have drained the queue, leaving no pending songs). -/
theorem playNext_disconnected_counterexample :
    playNext false (fun _ => true)
        { songs := [songA, songB], current := none, is_playing := false,
          is_paused := false, should_skip := false } =
      { songs := [songB], current := none, is_playing := false,
        is_paused := false, should_skip := false } ∧
    (playNext false (fun _ => true)
        { songs := [songA, songB], current := none, is_playing := false,
          is_paused := false, should_skip := false }).songs ≠ [] := by
  constructor
  · conv_lhs => rw [playNext.eq_def]
    simp [MusicQueue.set_current, MusicQueue.set_playing,
      MusicQueue.set_skip]
  · conv_lhs => rw [playNext.eq_def]
    simp [MusicQueue.set_current, MusicQueue.set_playing,
      MusicQueue.set_skip]

/-- C1 (amended): in play_next with a pending song, a failed audio-source
creation clears the queue's current song and playing flag and invokes
play_next again on the same guild queue (the next pending song is
attempted); a voice client that reports it is not connected clears the
current song and playing flag but returns without invoking play_next
again, leaving the remaining songs pending. -/
theorem playNext_failure_recovery (connected : Bool) (srcOk : Song → Bool)
    (q : MusicQueue) (s : Song) (rest : List Song)
    (hq : q.songs = s :: rest) :
    (connected = true → srcOk s = false →
      playNext connected srcOk q =
        playNext connected srcOk { q with
          songs := rest, current := none, is_playing := false,
          should_skip := false }) ∧
    (connected = false →
      playNext connected srcOk q =
        { q with
          songs := rest, current := none, is_playing := false,
          should_skip := false }) := by
  obtain ⟨songs, cur, pl, pa, sk⟩ := q
  simp only at hq
  subst hq
  constructor
  · intro hc hs
    subst hc
    conv_lhs => rw [playNext.eq_def]
    simp [hs, MusicQueue.set_current, MusicQueue.set_playing,
      MusicQueue.set_skip]
  · intro hc
    subst hc
    conv_lhs => rw [playNext.eq_def]
    simp [MusicQueue.set_current, MusicQueue.set_playing,
      MusicQueue.set_skip]

/-- Witness for playNext_failure_recovery at concrete inputs: a queue of
two songs whose first fails source creation while connected recurses and
ends bound to the second song; the same queue with a disconnected client
stops with the second song still pending. -/
theorem playNext_failure_recovery_witness :
    (playNext true (fun s => s.title ≠ "a")
        { songs := [songA, songB], current := none, is_playing := false,
          is_paused := false, should_skip := false } =
      playNext true (fun s => s.title ≠ "a")
        { songs := [songB], current := none, is_playing := false,
          is_paused := false, should_skip := false }) ∧
    (playNext false (fun s => s.title ≠ "a")
        { songs := [songA, songB], current := none, is_playing := false,
          is_paused := false, should_skip := false } =
      { songs := [songB], current := none, is_playing := false,
        is_paused := false, should_skip := false }) := by
  constructor
  · exact (playNext_failure_recovery true (fun s => s.title ≠ "a")
      { songs := [songA, songB], current := none, is_playing := false,
        is_paused := false, should_skip := false } songA [songB] rfl).1
      rfl (by simp [songA])
  · exact (playNext_failure_recovery false (fun s => s.title ≠ "a")
      { songs := [songA, songB], current := none, is_playing := false,
        is_paused := false, should_skip := false } songA [songB] rfl).2
      rfl

/-! ## The card cache (bots/mtg-card-bot/src/mtg_card_bot/cache.py)

Cached values are Python objects that may be None; they are modelled as
`Option Nat` with `none` standing for Python None. The wall clock
(time.time()) is a rational passed to each operation. -/

/-- CacheItem: a cached value with its creation time, TTL and access
metadata (access_count starts at 1, last_accessed at creation time). -/
structure CacheItem where
  value : Option Nat
  created_at : ℚ
  ttl_seconds : ℚ
  access_count : Nat
  last_accessed : ℚ
deriving DecidableEq, Repr

/-- CacheItem.is_expired: the item's age exceeds its own TTL. -/
def CacheItem.is_expired (now : ℚ) (item : CacheItem) : Bool :=
  now - item.created_at > item.ttl_seconds

/-- CacheItem.touch: bump the access count and refresh last_accessed. -/
def CacheItem.touch (now : ℚ) (item : CacheItem) : CacheItem :=
  { item with
    access_count := item.access_count + 1, last_accessed := now }

/-- CardCache: the insertion-ordered key-item map together with the
configured TTL and max size and the hit/miss/eviction/size statistics. -/
structure CardCache where
  cache : List (String × CacheItem)
  ttl_seconds : ℚ
  max_size : Nat
  hits : Nat
  misses : Nat
  evictions : Nat
  stats_size : Nat
deriving DecidableEq, Repr

/-- A freshly constructed CardCache with the given TTL and max size. -/
def CardCache.empty (ttl : ℚ) (max_size : Nat) : CardCache :=
  { cache := [], ttl_seconds := ttl, max_size := max_size, hits := 0,
    misses := 0, evictions := 0, stats_size := 0 }

/-- CardCache._cleanup_expired: drop every entry whose age (relative to
the cache's configured TTL) exceeds the TTL. -/
def CardCache.cleanup_expired (now : ℚ) (c : CardCache) : CardCache :=
  { c with
    cache := c.cache.filter
      (fun p => ¬ (now - p.2.created_at > c.ttl_seconds)) }

/-- CardCache._evict_lru: remove the entry with the smallest
last_accessed (first such entry in iteration order, matching Python's
min over dict keys) and count one eviction; no-op on an empty cache. -/
def CardCache.evict_lru (c : CardCache) : CardCache :=
  match c.cache with
  | [] => c
  | p :: rest =>
    let lru := rest.foldl
      (fun acc q =>
        if q.2.last_accessed < acc.2.last_accessed then q else acc) p
    { c with
      cache := dictErase lru.1 c.cache,
      evictions := c.evictions + 1 }

/-- CardCache.get: sweep expired entries, then look the key up; a missing
or expired entry counts a miss (an expired entry is also deleted), a live
entry is touched, counts a hit and yields its value. -/
def CardCache.get (now : ℚ) (key : String) (c : CardCache) :
    Option Nat × CardCache :=
  let c1 := c.cleanup_expired now
  match dictLookup key c1.cache with
  | none => (none, { c1 with misses := c1.misses + 1 })
  | some item =>
    if item.is_expired now then
      (none, { c1 with
        cache := dictErase key c1.cache, misses := c1.misses + 1 })
    else
      (item.value, { c1 with
        cache := dictInsert key (item.touch now) c1.cache,
        hits := c1.hits + 1 })

/-- CardCache.set: sweep expired entries; when at capacity and the key is
new, evict the least-recently-used entry; then bind the key to a fresh
CacheItem and record the new size. -/
def CardCache.set (now : ℚ) (key : String) (value : Option Nat)
    (c : CardCache) : CardCache :=
  let c1 := c.cleanup_expired now
  let c2 :=
    if c1.max_size ≤ c1.cache.length ∧ dictLookup key c1.cache = none then
      c1.evict_lru
    else c1
  let c3 := { c2 with
    cache := dictInsert key
      { value := value, created_at := now,
        ttl_seconds := c2.ttl_seconds, access_count := 1,
        last_accessed := now } c2.cache }
  { c3 with stats_size := c3.cache.length }

/-- CardCache.get_or_set: try get; a non-None cached value is returned
directly, otherwise the factory is invoked (its failure propagates and
nothing is stored) and its result is stored and returned. -/
def CardCache.get_or_set (now : ℚ) (key : String)
    (factory : String → Except Unit (Option Nat)) (c : CardCache) :
    Except Unit (Option Nat) × CardCache :=
  match c.get now key with
  | (some v, c1) => (Except.ok (some v), c1)
  | (none, c1) =>
    match factory key with
    | Except.error e => (Except.error e, c1)
    | Except.ok value => (Except.ok value, c1.set now key value)

/-- CardCache.clear: empty the store, keeping cumulative counters. -/
def CardCache.clear (c : CardCache) : CardCache :=
  { c with cache := [], stats_size := 0 }

/-- One client-visible cache operation, with the simulated wall-clock
time at which it runs. -/
inductive CacheOp where
  | get (now : ℚ) (key : String)
  | set (now : ℚ) (key : String) (value : Option Nat)
  | getOrSet (now : ℚ) (key : String)
      (factory : String → Except Unit (Option Nat))
  | clear

/-- Run one cache operation, keeping only the resulting state. -/
def CardCache.runOp (c : CardCache) : CacheOp → CardCache
  | CacheOp.get now key => (c.get now key).2
  | CacheOp.set now key value => c.set now key value
  | CacheOp.getOrSet now key factory => (c.get_or_set now key factory).2
  | CacheOp.clear => c.clear

/-- Run a sequence of cache operations. -/
def CardCache.runOps (c : CardCache) (ops : List CacheOp) : CardCache :=
  ops.foldl CardCache.runOp c

theorem CardCache.cleanup_ttl (c : CardCache) (now : ℚ) :
    (c.cleanup_expired now).ttl_seconds = c.ttl_seconds := rfl

theorem CardCache.cleanup_max (c : CardCache) (now : ℚ) :
    (c.cleanup_expired now).max_size = c.max_size := rfl

theorem CardCache.cleanup_eq_self (c : CardCache) (now : ℚ)
    (h : ∀ p ∈ c.cache, ¬ (now - p.2.created_at > c.ttl_seconds)) :
    c.cleanup_expired now = c := by
  have hfil : c.cache.filter
      (fun p => ¬ (now - p.2.created_at > c.ttl_seconds)) = c.cache :=
    List.filter_eq_self.mpr (fun a ha => by simpa using h a ha)
  unfold CardCache.cleanup_expired
  rw [hfil]

theorem CardCache.cleanup_length_le (c : CardCache) (now : ℚ) :
    (c.cleanup_expired now).cache.length ≤ c.cache.length :=
  List.length_filter_le _ _

theorem CardCache.evict_ttl (c : CardCache) :
    c.evict_lru.ttl_seconds = c.ttl_seconds := by
  unfold CardCache.evict_lru
  cases c.cache <;> simp

theorem CardCache.evict_max (c : CardCache) :
    c.evict_lru.max_size = c.max_size := by
  unfold CardCache.evict_lru
  cases c.cache <;> simp

theorem CardCache.get_ttl (c : CardCache) (now : ℚ) (key : String) :
    (c.get now key).2.ttl_seconds = c.ttl_seconds := by
  rcases hl : dictLookup key (c.cleanup_expired now).cache with _ | item
  · simp [CardCache.get, hl, CardCache.cleanup_ttl]
  · by_cases h : item.is_expired now <;>
      simp [CardCache.get, hl, h, CardCache.cleanup_ttl]

theorem CardCache.get_max (c : CardCache) (now : ℚ) (key : String) :
    (c.get now key).2.max_size = c.max_size := by
  rcases hl : dictLookup key (c.cleanup_expired now).cache with _ | item
  · simp [CardCache.get, hl, CardCache.cleanup_max]
  · by_cases h : item.is_expired now <;>
      simp [CardCache.get, hl, h, CardCache.cleanup_max]

theorem CardCache.cleanup_hits (c : CardCache) (now : ℚ) :
    (c.cleanup_expired now).hits = c.hits := rfl

theorem CardCache.cleanup_misses (c : CardCache) (now : ℚ) :
    (c.cleanup_expired now).misses = c.misses := rfl

theorem CardCache.cleanup_evictions (c : CardCache) (now : ℚ) :
    (c.cleanup_expired now).evictions = c.evictions := rfl

theorem CardCache.set_ttl (c : CardCache) (now : ℚ) (key : String)
    (v : Option Nat) : (c.set now key v).ttl_seconds = c.ttl_seconds := by
  simp only [CardCache.set]
  split
  · simp [CardCache.evict_ttl, CardCache.cleanup_ttl]
  · simp [CardCache.cleanup_ttl]

theorem CardCache.set_max (c : CardCache) (now : ℚ) (key : String)
    (v : Option Nat) : (c.set now key v).max_size = c.max_size := by
  simp only [CardCache.set]
  split
  · simp [CardCache.evict_max, CardCache.cleanup_max]
  · simp [CardCache.cleanup_max]

/-- C5: a get on a key whose entry is older than the TTL returns absent,
counts a miss and no hit, and purges the expired entry from the store. -/
theorem cardCache_ttl_expiry_miss (c : CardCache) (now : ℚ) (key : String)
    (item : CacheItem) (hnd : (c.cache.map Prod.fst).Nodup)
    (hl : dictLookup key c.cache = some item)
    (hexp : now - item.created_at > c.ttl_seconds) :
    (c.get now key).1 = none ∧
    (c.get now key).2.misses = c.misses + 1 ∧
    (c.get now key).2.hits = c.hits ∧
    dictLookup key (c.get now key).2.cache = none := by
  have hnone : dictLookup key (c.cleanup_expired now).cache = none := by
    unfold CardCache.cleanup_expired
    exact dictLookup_filter_none key item _ c.cache hnd hl (by simp [hexp])
  simp [CardCache.get, hnone, CardCache.cleanup_hits,
    CardCache.cleanup_misses]

/-- A concrete cache item created at time 0 with TTL 10. -/
def witnessItem : CacheItem :=
  { value := some 3, created_at := 0, ttl_seconds := 10, access_count := 1,
    last_accessed := 0 }

/-- A concrete one-entry cache with TTL 10 and max size 5. -/
def witnessCache : CardCache :=
  { cache := [("k", witnessItem)], ttl_seconds := 10, max_size := 5,
    hits := 2, misses := 4, evictions := 0, stats_size := 1 }

/-- Witness for cardCache_ttl_expiry_miss: the one-entry cache with TTL
10 read 11 seconds after insertion misses, and the entry is purged. -/
theorem cardCache_ttl_expiry_miss_witness :
    (witnessCache.get 11 "k").1 = none ∧
    (witnessCache.get 11 "k").2.misses = 4 + 1 ∧
    (witnessCache.get 11 "k").2.hits = 2 ∧
    dictLookup "k" (witnessCache.get 11 "k").2.cache = none :=
  cardCache_ttl_expiry_miss witnessCache 11 "k" witnessItem (by decide)
    (by decide) (by norm_num [witnessItem, witnessCache])

theorem CardCache.set_lookup_self (c : CardCache) (now : ℚ) (key : String)
    (v : Option Nat) :
    dictLookup key (c.set now key v).cache =
      some { value := v, created_at := now,
             ttl_seconds := c.ttl_seconds, access_count := 1,
             last_accessed := now } := by
  simp only [CardCache.set]
  split
  · simp [dictLookup_insert_self, CardCache.evict_ttl,
      CardCache.cleanup_ttl]
  · simp [dictLookup_insert_self, CardCache.cleanup_ttl]

theorem CardCache.get_or_set_miss_store (c : CardCache) (now : ℚ)
    (key : String) (v : Option Nat) (hget1 : (c.get now key).1 = none) :
    (c.get_or_set now key (fun _ => Except.ok v)).1 = Except.ok v ∧
    dictLookup key
        ((c.get_or_set now key (fun _ => Except.ok v)).2).cache =
      some { value := v, created_at := now,
             ttl_seconds := c.ttl_seconds, access_count := 1,
             last_accessed := now } := by
  rcases hg : c.get now key with ⟨r, c1⟩
  have hr : r = none := by rw [hg] at hget1; exact hget1
  subst hr
  have httl : c1.ttl_seconds = c.ttl_seconds := by
    have h := CardCache.get_ttl c now key
    rw [hg] at h
    exact h
  constructor
  · simp [CardCache.get_or_set, hg]
  · have hlk := CardCache.set_lookup_self c1 now key v
    rw [httl] at hlk
    simp [CardCache.get_or_set, hg, hlk]

/-- C4: get_or_set with a raising factory leaves the cache contents
unchanged (only the miss counter is bumped; the failed result is not
stored) and propagates the error; a subsequent get_or_set on the same
key with a succeeding factory returns the fetched value and stores it. -/
theorem cardCache_failed_fetch_not_cached (c : CardCache) (now : ℚ)
    (key : String) (n : Nat)
    (hfresh : ∀ p ∈ c.cache, ¬ (now - p.2.created_at > c.ttl_seconds))
    (habs : dictLookup key c.cache = none) :
    c.get_or_set now key (fun _ => Except.error ()) =
      (Except.error (), { c with misses := c.misses + 1 }) ∧
    (({ c with misses := c.misses + 1 } : CardCache).get_or_set now key
        (fun _ => Except.ok (some n))).1 = Except.ok (some n) ∧
    dictLookup key
        ((({ c with misses := c.misses + 1 } : CardCache).get_or_set now
            key (fun _ => Except.ok (some n))).2).cache =
      some { value := some n, created_at := now,
             ttl_seconds := c.ttl_seconds, access_count := 1,
             last_accessed := now } := by
  have hclean : c.cleanup_expired now = c :=
    CardCache.cleanup_eq_self c now hfresh
  have hget : c.get now key = (none, { c with misses := c.misses + 1 }) := by
    simp [CardCache.get, hclean, habs]
  have hclean2 :
      ({ c with misses := c.misses + 1 } : CardCache).cleanup_expired now =
        { c with misses := c.misses + 1 } :=
    CardCache.cleanup_eq_self _ now hfresh
  have hget2 : (({ c with misses := c.misses + 1 } : CardCache).get now
      key).1 = none := by
    simp [CardCache.get, hclean2, habs]
  refine ⟨?_, ?_, ?_⟩
  · simp [CardCache.get_or_set, hget]
  · exact (CardCache.get_or_set_miss_store _ now key (some n) hget2).1
  · exact (CardCache.get_or_set_miss_store _ now key (some n) hget2).2

/-- Witness for cardCache_failed_fetch_not_cached on a fresh empty cache
with TTL 10 and max size 2 at time 0, fetching key "k". -/
theorem cardCache_failed_fetch_not_cached_witness :
    (CardCache.empty 10 2).get_or_set 0 "k" (fun _ => Except.error ()) =
      (Except.error (),
        { CardCache.empty 10 2 with misses := 0 + 1 }) ∧
    (({ CardCache.empty 10 2 with
        misses := 0 + 1 } : CardCache).get_or_set 0 "k"
        (fun _ => Except.ok (some 7))).1 = Except.ok (some 7) ∧
    dictLookup "k"
        ((({ CardCache.empty 10 2 with
            misses := 0 + 1 } : CardCache).get_or_set 0 "k"
            (fun _ => Except.ok (some 7))).2).cache =
      some { value := some 7, created_at := 0, ttl_seconds := 10,
             access_count := 1, last_accessed := 0 } :=
  cardCache_failed_fetch_not_cached (CardCache.empty 10 2) 0 "k" 7
    (by simp [CardCache.empty]) (by simp [CardCache.empty, dictLookup])

/-- C10: a factory result of None is stored by get_or_set and returned,
but a stored None is indistinguishable from an absent key to get_or_set:
get on such an entry yields none, and get_or_set always re-invokes the
factory and returns exactly the factory's (possibly failing) result, so
a None result is never served from the cache. -/
theorem cardCache_none_not_served :
    (∀ (c : CardCache) (now : ℚ) (key : String),
      (c.get now key).1 = none →
      (c.get_or_set now key (fun _ => Except.ok none)).1 =
        Except.ok none ∧
      dictLookup key
          ((c.get_or_set now key (fun _ => Except.ok none)).2).cache =
        some { value := none, created_at := now,
               ttl_seconds := c.ttl_seconds, access_count := 1,
               last_accessed := now }) ∧
    (∀ (c : CardCache) (now : ℚ) (key : String) (item : CacheItem)
      (factory : String → Except Unit (Option Nat)),
      dictLookup key c.cache = some item → item.value = none →
      ¬ (now - item.created_at > c.ttl_seconds) →
      item.is_expired now = false →
      (c.get now key).1 = none ∧
      (c.get_or_set now key factory).1 = factory key) := by
  constructor
  · intro c now key hget1
    exact CardCache.get_or_set_miss_store c now key none hget1
  · intro c now key item factory hli hval httl hexp
    have hsurv : dictLookup key (c.cleanup_expired now).cache =
        some item := by
      unfold CardCache.cleanup_expired
      exact dictLookup_filter_some key item _ c.cache hli (by simp [httl])
    have hget1 : (c.get now key).1 = none := by
      simp [CardCache.get, hsurv, hexp, hval]
    refine ⟨hget1, ?_⟩
    rcases hg : c.get now key with ⟨r, c1⟩
    have hr : r = none := by rw [hg] at hget1; exact hget1
    subst hr
    cases hf : factory key <;> simp [CardCache.get_or_set, hg, hf]

/-- A concrete cache item holding a stored None (created at 0, TTL 10). -/
def witnessNoneItem : CacheItem :=
  { value := none, created_at := 0, ttl_seconds := 10, access_count := 1,
    last_accessed := 0 }

/-- A concrete cache whose only entry for "k" holds a stored None. -/
def witnessNoneCache : CardCache :=
  { cache := [("k", witnessNoneItem)], ttl_seconds := 10, max_size := 2,
    hits := 0, misses := 1, evictions := 0, stats_size := 1 }

/-- Witness for cardCache_none_not_served: storing a None result for key
"k" in a fresh cache at time 0, then observing at time 1 that the stored
None is treated as a miss and a failing factory's error is returned. -/
theorem cardCache_none_not_served_witness :
    (((CardCache.empty 10 2).get_or_set 0 "k"
        (fun _ => Except.ok none)).1 = Except.ok none ∧
      dictLookup "k"
          (((CardCache.empty 10 2).get_or_set 0 "k"
              (fun _ => Except.ok none)).2).cache =
        some { value := none, created_at := 0, ttl_seconds := 10,
               access_count := 1, last_accessed := 0 }) ∧
    ((witnessNoneCache.get 1 "k").1 = none ∧
      (witnessNoneCache.get_or_set 1 "k"
          (fun _ => Except.error ())).1 = Except.error ()) := by
  constructor
  · exact cardCache_none_not_served.1 (CardCache.empty 10 2) 0 "k"
      (by decide)
  · exact cardCache_none_not_served.2 witnessNoneCache 1 "k"
      witnessNoneItem (fun _ => Except.error ()) (by decide) (by decide)
      (by norm_num [witnessNoneItem, witnessNoneCache])
      (by norm_num [CacheItem.is_expired, witnessNoneItem])

theorem lruFold_mem (p : String × CacheItem)
    (rest : List (String × CacheItem)) :
    rest.foldl
        (fun acc q =>
          if q.2.last_accessed < acc.2.last_accessed then q else acc) p ∈
      p :: rest := by
  induction rest generalizing p with
  | nil => simp
  | cons q rest' ih =>
    simp only [List.foldl_cons]
    have h := ih (if q.2.last_accessed < p.2.last_accessed then q else p)
    by_cases hc : q.2.last_accessed < p.2.last_accessed
    · rw [if_pos hc] at h ⊢
      exact List.mem_cons_of_mem _ h
    · rw [if_neg hc] at h ⊢
      rcases List.mem_cons.mp h with h1 | h1
      · rw [h1]
        exact List.mem_cons_self _ _
      · exact List.mem_cons_of_mem _ (List.mem_cons_of_mem _ h1)

theorem CardCache.evict_cache_sublist (c : CardCache) :
    c.evict_lru.cache.Sublist c.cache := by
  obtain ⟨l, T, M, h1, h2, h3, s⟩ := c
  cases l with
  | nil => simp [CardCache.evict_lru]
  | cons p rest =>
    simp only [CardCache.evict_lru]
    exact dictErase_sublist _ _

theorem CardCache.evict_length (c : CardCache) (h : c.cache ≠ []) :
    c.evict_lru.cache.length + 1 = c.cache.length := by
  obtain ⟨l, T, M, h1, h2, h3, s⟩ := c
  cases l with
  | nil => simp at h
  | cons p rest =>
    simp only [CardCache.evict_lru]
    have hmem := lruFold_mem p rest
    obtain ⟨w, hw⟩ := mem_dictLookup_isSome _ _ hmem
    exact dictErase_length_present _ _ _ hw

theorem CardCache.set_length_le (c : CardCache) (now : ℚ) (key : String)
    (v : Option Nat) (hM : 1 ≤ c.max_size)
    (h : c.cache.length ≤ c.max_size) :
    (c.set now key v).cache.length ≤ c.max_size := by
  have hclen : (c.cleanup_expired now).cache.length ≤ c.max_size :=
    le_trans (CardCache.cleanup_length_le c now) h
  simp only [CardCache.set]
  split
  · rename_i hguard
    rw [CardCache.cleanup_max] at hguard
    have hlen_eq : (c.cleanup_expired now).cache.length = c.max_size :=
      le_antisymm hclen hguard.1
    have hne : (c.cleanup_expired now).cache ≠ [] := by
      intro hnil
      rw [hnil] at hlen_eq
      simp at hlen_eq
      omega
    have hev := CardCache.evict_length (c.cleanup_expired now) hne
    have habs : dictLookup key
        ((c.cleanup_expired now).evict_lru).cache = none := by
      rw [dictLookup_eq_none_iff]
      intro p hp
      exact (dictLookup_eq_none_iff key _).mp hguard.2 p
        ((CardCache.evict_cache_sublist _).subset hp)
    simp only [dictInsert_length_absent key _ _ habs]
    omega
  · rename_i hguard
    rcases hlk : dictLookup key (c.cleanup_expired now).cache with _ | w
    · have hlt : ¬ (c.max_size ≤ (c.cleanup_expired now).cache.length) := by
        intro hle
        exact hguard ⟨by rw [CardCache.cleanup_max]; exact hle, hlk⟩
      simp only [dictInsert_length_absent key _ _ hlk]
      omega
    · simp only [dictInsert_length_present key _ w _ hlk]
      exact hclen

theorem CardCache.get_length_le (c : CardCache) (now : ℚ) (key : String) :
    (c.get now key).2.cache.length ≤ c.cache.length := by
  have hclen := CardCache.cleanup_length_le c now
  rcases hl : dictLookup key (c.cleanup_expired now).cache with _ | item
  · simp only [CardCache.get, hl]
    exact hclen
  · by_cases h : item.is_expired now
    · simp only [CardCache.get, hl, h, if_true]
      exact le_trans ((dictErase_sublist key _).length_le) hclen
    · simp only [CardCache.get, hl, h, Bool.false_eq_true, if_false]
      rw [dictInsert_length_present key (CacheItem.touch now item) item _
        hl]
      exact hclen

theorem CardCache.get_or_set_length_le (c : CardCache) (now : ℚ)
    (key : String) (factory : String → Except Unit (Option Nat))
    (hM : 1 ≤ c.max_size) (h : c.cache.length ≤ c.max_size) :
    (c.get_or_set now key factory).2.cache.length ≤ c.max_size := by
  rcases hg : c.get now key with ⟨r, c1⟩
  have hlen : c1.cache.length ≤ c.max_size := by
    have hle := CardCache.get_length_le c now key
    rw [hg] at hle
    exact le_trans hle h
  have hmax : c1.max_size = c.max_size := by
    have hm := CardCache.get_max c now key
    rw [hg] at hm
    exact hm
  cases r with
  | some v => simp only [CardCache.get_or_set, hg]; exact hlen
  | none =>
    cases hf : factory key with
    | error e => simp only [CardCache.get_or_set, hg, hf]; exact hlen
    | ok v =>
      simp only [CardCache.get_or_set, hg, hf]
      rw [← hmax] at hM h ⊢
      exact CardCache.set_length_le c1 now key v hM (hmax ▸ hlen)

theorem CardCache.runOp_max (c : CardCache) (op : CacheOp) :
    (c.runOp op).max_size = c.max_size := by
  cases op with
  | get now key => exact CardCache.get_max c now key
  | set now key v => exact CardCache.set_max c now key v
  | getOrSet now key factory =>
    rcases hg : c.get now key with ⟨r, c1⟩
    have hm := CardCache.get_max c now key
    rw [hg] at hm
    cases r with
    | some v => simp only [CardCache.runOp, CardCache.get_or_set, hg]; exact hm
    | none =>
      cases hf : factory key with
      | error e =>
        simp only [CardCache.runOp, CardCache.get_or_set, hg, hf]
        exact hm
      | ok v =>
        simp only [CardCache.runOp, CardCache.get_or_set, hg, hf]
        rw [CardCache.set_max]
        exact hm
  | clear => rfl

theorem CardCache.runOp_length_le (c : CardCache) (op : CacheOp)
    (hM : 1 ≤ c.max_size) (h : c.cache.length ≤ c.max_size) :
    (c.runOp op).cache.length ≤ c.max_size := by
  cases op with
  | get now key =>
    exact le_trans (CardCache.get_length_le c now key) h
  | set now key v => exact CardCache.set_length_le c now key v hM h
  | getOrSet now key factory =>
    exact CardCache.get_or_set_length_le c now key factory hM h
  | clear => simp [CardCache.runOp, CardCache.clear]

/-- C8: over any sequence of get, set, get_or_set and clear operations on
a cache constructed with max size M at least 1, the number of stored
entries never exceeds M after any operation completes (every prefix of
an operation sequence is itself such a sequence). -/
theorem cardCache_size_bounded (ttl : ℚ) (M : Nat) (ops : List CacheOp)
    (hM : 1 ≤ M) :
    ((CardCache.empty ttl M).runOps ops).cache.length ≤ M := by
  suffices h : ∀ (ops : List CacheOp) (c : CardCache),
      1 ≤ c.max_size → c.cache.length ≤ c.max_size →
      (c.runOps ops).cache.length ≤ c.max_size ∧
      (c.runOps ops).max_size = c.max_size by
    have := h ops (CardCache.empty ttl M) (by simpa [CardCache.empty])
      (by simp [CardCache.empty])
    simpa [CardCache.empty] using this.1
  intro ops
  induction ops with
  | nil => intro c h1 h2; exact ⟨h2, rfl⟩
  | cons op rest ih =>
    intro c h1 h2
    have hstep_len := CardCache.runOp_length_le c op h1 h2
    have hstep_max := CardCache.runOp_max c op
    have := ih (c.runOp op) (by omega) (by omega)
    simp only [CardCache.runOps, List.foldl_cons] at *
    omega

/-- Witness for cardCache_size_bounded: a cache of max size 1 stays at
one entry after two distinct inserts and a get_or_set of a third key. -/
theorem cardCache_size_bounded_witness :
    1 ≤ 1 ∧
    ((CardCache.empty 10 1).runOps
        [CacheOp.set 0 "a" (some 1), CacheOp.set 0 "b" (some 2),
         CacheOp.getOrSet 0 "c" (fun _ => Except.ok (some 3))]).cache.length ≤
      1 :=
  ⟨le_refl 1,
    cardCache_size_bounded 10 1
      [CacheOp.set 0 "a" (some 1), CacheOp.set 0 "b" (some 2),
       CacheOp.getOrSet 0 "c" (fun _ => Except.ok (some 3))] (le_refl 1)⟩

/-! ## The duplicate suppressor (bots/mtg-card-bot/src/mtg_card_bot/bot.py,
on_message lines 85-93) -/

/-- Lowercase a string character-wise (Python str.lower, restricted to
the ASCII range Char.toLower covers). -/
def lowerString (s : String) : String :=
  String.mk (s.data.map Char.toLower)

/-- Split a character list on whitespace runs, dropping empty pieces
(Python str.split with no argument); the second argument accumulates the
current word in reverse. -/
def wordsAux : List Char → List Char → List String
  | [], acc => if acc.isEmpty then [] else [String.mk acc.reverse]
  | ch :: cs, acc =>
    if ch.isWhitespace then
      if acc.isEmpty then wordsAux cs []
      else String.mk acc.reverse :: wordsAux cs []
    else wordsAux cs (ch :: acc)

/-- The normalization applied to a command before duplicate suppression:
lowercase, then collapse whitespace runs to single spaces (Python
" ".join(content.lower().split())). -/
def normalizeContent (content : String) : String :=
  " ".intercalate (wordsAux (lowerString content).data [])

/-- The duplicate-suppression window check of MTGCardBot.on_message: a
(user id, normalized text) pair last accepted less than 1.5 seconds ago
is rejected without updating the recorded timestamp; otherwise it is
accepted and the current time is recorded for the pair. -/
def suppressCheck (recent : List ((Nat × String) × ℚ)) (author : Nat)
    (content : String) (now : ℚ) : Bool × List ((Nat × String) × ℚ) :=
  let key := (author, normalizeContent content)
  match dictLookup key recent with
  | some last =>
    if now - last < 3 / 2 then (false, recent)
    else (true, dictInsert key now recent)
  | none => (true, dictInsert key now recent)

/-- C7: a (user, normalized text) pair resubmitted strictly less than 1.5
seconds after its recorded acceptance is rejected and the recorded
timestamp is unchanged; resubmitted 1.5 seconds or later, it is accepted
and the current time is recorded for the pair. -/
theorem duplicateSuppressor_window (recent : List ((Nat × String) × ℚ))
    (author : Nat) (content : String) (now last : ℚ)
    (hl : dictLookup (author, normalizeContent content) recent =
      some last) :
    (now - last < 3 / 2 →
      suppressCheck recent author content now = (false, recent)) ∧
    (3 / 2 ≤ now - last →
      suppressCheck recent author content now =
        (true,
          dictInsert (author, normalizeContent content) now recent) ∧
      dictLookup (author, normalizeContent content)
          (suppressCheck recent author content now).2 = some now) := by
  constructor
  · intro h
    simp [suppressCheck, hl, h]
  · intro h
    have hnot : ¬ (now - last < 3 / 2) := not_lt.mpr h
    constructor
    · simp [suppressCheck, hl, hnot]
    · simp [suppressCheck, hl, hnot, dictLookup_insert_self]

/-- Witness for duplicateSuppressor_window: the pair (user 1,
"Lightning  Bolt") recorded at time 0 is rejected when resubmitted at
time 1 and accepted when resubmitted at time 1.6. -/
theorem duplicateSuppressor_window_witness :
    suppressCheck [((1, "lightning bolt"), 0)] 1 "Lightning  Bolt" 1 =
      (false, [((1, "lightning bolt"), 0)]) ∧
    suppressCheck [((1, "lightning bolt"), 0)] 1 "Lightning  Bolt"
        (8 / 5) =
      (true,
        dictInsert (1, normalizeContent "Lightning  Bolt") (8 / 5)
          [((1, "lightning bolt"), 0)]) := by
  have hn : normalizeContent "Lightning  Bolt" = "lightning bolt" := by
    decide
  constructor
  · exact (duplicateSuppressor_window [((1, "lightning bolt"), 0)] 1
      "Lightning  Bolt" 1 0 (by rw [hn]; decide)).1 (by norm_num)
  · exact ((duplicateSuppressor_window [((1, "lightning bolt"), 0)] 1
      "Lightning  Bolt" (8 / 5) 0 (by rw [hn]; decide)).2
      (by norm_num)).1

/-! ## Per-guild volume control (bots/music/src/music/audio.py) -/

/-- The per-guild volume store of AudioPlayer. -/
structure AudioPlayer where
  volumes : List (String × ℚ)
deriving DecidableEq, Repr

/-- A freshly initialized AudioPlayer (no stored volumes). -/
def AudioPlayer.init : AudioPlayer := { volumes := [] }

/-- AudioPlayer.get_volume: the stored volume, defaulting to 0.5. -/
def AudioPlayer.get_volume (p : AudioPlayer) (guild_id : String) : ℚ :=
  match dictLookup guild_id p.volumes with
  | some v => v
  | none => 1 / 2

/-- AudioPlayer.set_volume: store the volume clamped between 0 and 1. -/
def AudioPlayer.set_volume (p : AudioPlayer) (guild_id : String)
    (volume : ℚ) : AudioPlayer :=
  { volumes := dictInsert guild_id (max 0 (min 1 volume)) p.volumes }

/-- AudioPlayer.cleanup_guild: drop one guild's stored volume. -/
def AudioPlayer.cleanup_guild (p : AudioPlayer) (guild_id : String) :
    AudioPlayer :=
  { volumes := dictErase guild_id p.volumes }

/-- AudioPlayer.cleanup: drop all stored volumes. -/
def AudioPlayer.cleanup (p : AudioPlayer) : AudioPlayer :=
  { volumes := [] }

/-- One volume-affecting operation on the audio player. -/
inductive VolumeOp where
  | set (guild_id : String) (volume : ℚ)
  | cleanup_guild (guild_id : String)
  | cleanup
deriving DecidableEq, Repr

/-- Run one volume operation. -/
def AudioPlayer.runVolumeOp (p : AudioPlayer) : VolumeOp → AudioPlayer
  | VolumeOp.set g v => p.set_volume g v
  | VolumeOp.cleanup_guild g => p.cleanup_guild g
  | VolumeOp.cleanup => p.cleanup

/-- Run a sequence of volume operations. -/
def AudioPlayer.runVolumeOps (p : AudioPlayer) (ops : List VolumeOp) :
    AudioPlayer :=
  ops.foldl AudioPlayer.runVolumeOp p

theorem mem_dictInsert {α β : Type} [DecidableEq α] (q : α × β) (k : α)
    (v : β) (l : List (α × β)) (h : q ∈ dictInsert k v l) :
    q = (k, v) ∨ q ∈ l := by
  induction l with
  | nil => simpa [dictInsert] using h
  | cons p rest ih =>
    obtain ⟨k', v'⟩ := p
    by_cases hk : k' = k
    · rw [dictInsert, if_pos hk] at h
      rcases List.mem_cons.mp h with h1 | h1
      · exact Or.inl h1
      · exact Or.inr (List.mem_cons_of_mem _ h1)
    · rw [dictInsert, if_neg hk] at h
      rcases List.mem_cons.mp h with h1 | h1
      · exact Or.inr (h1 ▸ List.mem_cons_self _ _)
      · rcases ih h1 with h2 | h2
        · exact Or.inl h2
        · exact Or.inr (List.mem_cons_of_mem _ h2)

theorem dictLookup_mem {α β : Type} [DecidableEq α] (k : α) (v : β)
    (l : List (α × β)) (h : dictLookup k l = some v) : (k, v) ∈ l := by
  induction l with
  | nil => simp [dictLookup] at h
  | cons p rest ih =>
    obtain ⟨k', v'⟩ := p
    by_cases hk : k' = k
    · subst hk
      simp only [dictLookup, if_true, ite_true, eq_self_iff_true,
        Option.some.injEq] at h
      subst h
      exact List.mem_cons_self _ _
    · rw [dictLookup, if_neg hk] at h
      exact List.mem_cons_of_mem _ (ih h)

theorem runVolumeOps_bounded (ops : List VolumeOp) :
    ∀ p : AudioPlayer, (∀ q ∈ p.volumes, 0 ≤ q.2 ∧ q.2 ≤ 1) →
      ∀ q ∈ (p.runVolumeOps ops).volumes, 0 ≤ q.2 ∧ q.2 ≤ 1 := by
  induction ops with
  | nil => intro p hp; exact hp
  | cons op rest ih =>
    intro p hp
    simp only [AudioPlayer.runVolumeOps, List.foldl_cons]
    apply ih
    cases op with
    | set g v =>
      intro q hq
      rcases mem_dictInsert q g (max 0 (min 1 v)) p.volumes hq with h1 | h1
      · rw [h1]
        refine ⟨le_max_left _ _, max_le (by norm_num) (min_le_left _ _)⟩
      · exact hp q h1
    | cleanup_guild g =>
      intro q hq
      exact hp q ((dictErase_sublist g p.volumes).subset hq)
    | cleanup => intro q hq; simp [AudioPlayer.cleanup,
        AudioPlayer.runVolumeOp] at hq

/-- C9: set_volume stores the volume clamped into the unit interval
(0 when negative, 1 when above 1); get_volume on a guild never set
returns the default 0.5; and over any sequence of volume operations from
a fresh player, get_volume always returns a value between 0 and 1. -/
theorem audioPlayer_volume_clamped :
    (∀ (p : AudioPlayer) (g : String) (v : ℚ),
      (p.set_volume g v).get_volume g = max 0 (min 1 v) ∧
      (v < 0 → (p.set_volume g v).get_volume g = 0) ∧
      (1 < v → (p.set_volume g v).get_volume g = 1)) ∧
    (∀ g : String, AudioPlayer.init.get_volume g = 1 / 2) ∧
    (∀ (ops : List VolumeOp) (g : String),
      0 ≤ (AudioPlayer.init.runVolumeOps ops).get_volume g ∧
      (AudioPlayer.init.runVolumeOps ops).get_volume g ≤ 1) := by
  have hstored : ∀ (p : AudioPlayer) (g : String) (v : ℚ),
      (p.set_volume g v).get_volume g = max 0 (min 1 v) := by
    intro p g v
    simp [AudioPlayer.get_volume, AudioPlayer.set_volume,
      dictLookup_insert_self]
  refine ⟨?_, ?_, ?_⟩
  · intro p g v
    refine ⟨hstored p g v, ?_, ?_⟩
    · intro hv
      rw [hstored p g v, min_eq_right (by linarith), max_eq_left
        (by linarith)]
    · intro hv
      rw [hstored p g v, min_eq_left (by linarith), max_eq_right
        (by norm_num)]
  · intro g
    simp [AudioPlayer.get_volume, AudioPlayer.init, dictLookup]
  · intro ops g
    have hb := runVolumeOps_bounded ops AudioPlayer.init
      (by simp [AudioPlayer.init]) 
    unfold AudioPlayer.get_volume
    rcases hl : dictLookup g (AudioPlayer.init.runVolumeOps ops).volumes
      with _ | v
    · norm_num
    · exact hb (g, v) (dictLookup_mem g v _ hl)

/-- Witness for audioPlayer_volume_clamped: setting -2 stores 0, setting
1.5 stores 1, a never-set guild reads 0.5, and after a concrete op
sequence the read volume is within the unit interval. -/
theorem audioPlayer_volume_clamped_witness :
    (-2 : ℚ) < 0 ∧
    (AudioPlayer.init.set_volume "g" (-2)).get_volume "g" = 0 ∧
    (1 : ℚ) < 3 / 2 ∧
    (AudioPlayer.init.set_volume "g" (3 / 2)).get_volume "g" = 1 ∧
    AudioPlayer.init.get_volume "g" = 1 / 2 ∧
    0 ≤ (AudioPlayer.init.runVolumeOps
        [VolumeOp.set "g" 7]).get_volume "g" ∧
    (AudioPlayer.init.runVolumeOps
        [VolumeOp.set "g" 7]).get_volume "g" ≤ 1 := by
  refine ⟨by norm_num,
    (audioPlayer_volume_clamped.1 AudioPlayer.init "g" (-2)).2.1
      (by norm_num),
    by norm_num,
    (audioPlayer_volume_clamped.1 AudioPlayer.init "g" (3 / 2)).2.2
      (by norm_num),
    audioPlayer_volume_clamped.2.1 "g",
    (audioPlayer_volume_clamped.2.2 [VolumeOp.set "g" 7] "g").1,
    (audioPlayer_volume_clamped.2.2 [VolumeOp.set "g" 7] "g").2⟩

/-! ## LRU eviction after M+1 inserts (claim C2) -/

/-- One CardCache.set call: key, stored value, and wall-clock time. -/
structure SetCall where
  key : String
  value : Option Nat
  now : ℚ
deriving DecidableEq, Repr

/-- The cache entry CardCache.set produces for a call, in a cache whose
configured TTL is T. -/
def SetCall.entry (T : ℚ) (s : SetCall) : String × CacheItem :=
  (s.key,
    { value := s.value, created_at := s.now, ttl_seconds := T,
      access_count := 1, last_accessed := s.now })

/-- Call a happens no later than call b, and b is within the TTL window
T of a. -/
def SetCall.windowed (T : ℚ) (a b : SetCall) : Prop :=
  a.now ≤ b.now ∧ b.now - a.now ≤ T

/-- Run a sequence of set calls against the cache. -/
def CardCache.setMany (c : CardCache) (xs : List SetCall) : CardCache :=
  xs.foldl (fun c s => c.set s.now s.key s.value) c

theorem CardCache.setMany_append (c : CardCache) (l1 l2 : List SetCall) :
    c.setMany (l1 ++ l2) = (c.setMany l1).setMany l2 := by
  simp [CardCache.setMany, List.foldl_append]

theorem lruFold_head (p : String × CacheItem)
    (rest : List (String × CacheItem))
    (hmin : ∀ q ∈ rest, p.2.last_accessed ≤ q.2.last_accessed) :
    rest.foldl
        (fun acc q =>
          if q.2.last_accessed < acc.2.last_accessed then q else acc) p =
      p := by
  induction rest with
  | nil => rfl
  | cons q rest' ih =>
    simp only [List.foldl_cons]
    rw [if_neg (not_lt.mpr (hmin q (List.mem_cons_self _ _)))]
    exact ih (fun r hr => hmin r (List.mem_cons_of_mem _ hr))

theorem set_fresh_append (T : ℚ) (c : CardCache) (done : List SetCall)
    (s : SetCall) (hT : c.ttl_seconds = T)
    (hc : c.cache = done.map (SetCall.entry T))
    (hwin : ∀ d ∈ done, SetCall.windowed T d s)
    (hkey : ∀ d ∈ done, d.key ≠ s.key)
    (hcap : done.length < c.max_size) :
    c.set s.now s.key s.value =
      { c with
        cache := (done ++ [s]).map (SetCall.entry T),
        stats_size := done.length + 1 } := by
  have hfresh : ∀ p ∈ c.cache,
      ¬ (s.now - p.2.created_at > c.ttl_seconds) := by
    intro p hp
    rw [hc] at hp
    obtain ⟨d, hd, rfl⟩ := List.mem_map.mp hp
    simp only [SetCall.entry, hT]
    exact not_lt.mpr (hwin d hd).2
  have hclean : c.cleanup_expired s.now = c :=
    CardCache.cleanup_eq_self c s.now hfresh
  have habs : ∀ p ∈ c.cache, p.1 ≠ s.key := by
    intro p hp
    rw [hc] at hp
    obtain ⟨d, hd, rfl⟩ := List.mem_map.mp hp
    simpa [SetCall.entry] using hkey d hd
  have hnocap : ¬ (c.max_size ≤ c.cache.length ∧
      dictLookup s.key c.cache = none) := by
    intro hand
    rw [hc, List.length_map] at hand
    omega
  simp only [CardCache.set, hclean, if_neg hnocap]
  rw [dictInsert_append_of_not_mem s.key _ c.cache habs]
  rw [hc]
  simp [SetCall.entry, hT]

theorem setMany_fill (T : ℚ) :
    ∀ (todo done : List SetCall) (c : CardCache),
      c.ttl_seconds = T →
      c.cache = done.map (SetCall.entry T) →
      c.stats_size = done.length →
      ((done ++ todo).map SetCall.key).Nodup →
      (done ++ todo).Pairwise (SetCall.windowed T) →
      done.length + todo.length ≤ c.max_size →
      c.setMany todo =
        { c with
          cache := (done ++ todo).map (SetCall.entry T),
          stats_size := done.length + todo.length } := by
  intro todo
  induction todo with
  | nil =>
    intro done c hT hc hs hnd hpw hlen
    simp only [CardCache.setMany, List.foldl_nil, List.append_nil]
    rw [← hc, ← hs]
    simp
  | cons s rest ih =>
    intro done c hT hc hs hnd hpw hlen
    have hpw2 := hpw
    rw [List.pairwise_append] at hpw2
    obtain ⟨hpwd, hpwt, hcross⟩ := hpw2
    have hwin : ∀ d ∈ done, SetCall.windowed T d s :=
      fun d hd => hcross d hd s (List.mem_cons_self _ _)
    have hnd2 := hnd
    rw [List.map_append, List.nodup_append] at hnd2
    obtain ⟨hnd_d, hnd_t, hdisj⟩ := hnd2
    have hkey : ∀ d ∈ done, d.key ≠ s.key := by
      intro d hd heq
      exact hdisj (List.mem_map_of_mem SetCall.key hd)
        (by rw [heq, List.map_cons]; exact List.mem_cons_self _ _)
    have hcap : done.length < c.max_size := by
      simp only [List.length_cons] at hlen
      omega
    have hstep := set_fresh_append T c done s hT hc hwin hkey hcap
    simp only [CardCache.setMany, List.foldl_cons]
    rw [hstep]
    have hih := ih (done ++ [s])
      { c with
        cache := (done ++ [s]).map (SetCall.entry T),
        stats_size := done.length + 1 }
      hT rfl (by simp) (by simpa [List.append_assoc] using hnd)
      (by simpa [List.append_assoc] using hpw)
      (by simp only [List.length_append, List.length_singleton]
          simp only [List.length_cons] at hlen
          omega)
    simp only [CardCache.setMany] at hih
    rw [hih]
    simp [List.append_assoc]
    omega

theorem pairwise_shape {γ : Type} (R : γ → γ → Prop) (x last : γ)
    (mid : List γ) (h : (x :: (mid ++ [last])).Pairwise R) :
    (x :: mid).Pairwise R ∧ (∀ d ∈ mid, R d last) ∧ R x last := by
  rw [List.pairwise_cons] at h
  obtain ⟨hx, hrest⟩ := h
  rw [List.pairwise_append] at hrest
  obtain ⟨hmid, _, hcross⟩ := hrest
  refine ⟨?_, ?_, ?_⟩
  · rw [List.pairwise_cons]
    exact ⟨fun b hb => hx b (List.mem_append_left _ hb), hmid⟩
  · intro d hd
    exact hcross d hd last (List.mem_singleton.mpr rfl)
  · exact hx last (List.mem_append_right _ (List.mem_singleton.mpr rfl))

theorem set_evict_step (T : ℚ) (M : Nat) (x last : SetCall)
    (mid : List SetCall)
    (hwinx : ∀ d ∈ mid, SetCall.windowed T x d)
    (hwinlast : ∀ d ∈ x :: mid, SetCall.windowed T d last)
    (hkeyl : ∀ d ∈ x :: mid, d.key ≠ last.key)
    (hlen : mid.length + 1 = M) :
    CardCache.set last.now last.key last.value
        { cache := (x :: mid).map (SetCall.entry T), ttl_seconds := T,
          max_size := M, hits := 0, misses := 0, evictions := 0,
          stats_size := M } =
      { cache := (mid ++ [last]).map (SetCall.entry T),
        ttl_seconds := T, max_size := M, hits := 0, misses := 0,
        evictions := 1, stats_size := M } := by
  have hfresh : ∀ p ∈ (x :: mid).map (SetCall.entry T),
      ¬ (last.now - p.2.created_at > T) := by
    intro p hp
    obtain ⟨d, hd, rfl⟩ := List.mem_map.mp hp
    simp only [SetCall.entry]
    exact not_lt.mpr (hwinlast d hd).2
  have hclean : CardCache.cleanup_expired last.now
      { cache := (x :: mid).map (SetCall.entry T), ttl_seconds := T,
        max_size := M, hits := 0, misses := 0, evictions := 0,
        stats_size := M } =
      { cache := (x :: mid).map (SetCall.entry T), ttl_seconds := T,
        max_size := M, hits := 0, misses := 0, evictions := 0,
        stats_size := M } :=
    CardCache.cleanup_eq_self _ _ hfresh
  have habs : dictLookup last.key ((x :: mid).map (SetCall.entry T)) =
      none := by
    rw [dictLookup_eq_none_iff]
    intro p hp
    obtain ⟨d, hd, rfl⟩ := List.mem_map.mp hp
    simpa [SetCall.entry] using hkeyl d hd
  have hguard : M ≤ ((x :: mid).map (SetCall.entry T)).length ∧
      dictLookup last.key ((x :: mid).map (SetCall.entry T)) = none := by
    constructor
    · simp only [List.length_map, List.length_cons]
      omega
    · exact habs
  have hevict : CardCache.evict_lru
      { cache := (x :: mid).map (SetCall.entry T), ttl_seconds := T,
        max_size := M, hits := 0, misses := 0, evictions := 0,
        stats_size := M } =
      { cache := mid.map (SetCall.entry T), ttl_seconds := T,
        max_size := M, hits := 0, misses := 0, evictions := 1,
        stats_size := M } := by
    simp only [List.map_cons, CardCache.evict_lru]
    rw [lruFold_head]
    · simp [dictErase, SetCall.entry]
    · intro q hq
      obtain ⟨d, hd, rfl⟩ := List.mem_map.mp hq
      simp only [SetCall.entry]
      exact (hwinx d hd).1
  have habs2 : ∀ p ∈ mid.map (SetCall.entry T), p.1 ≠ last.key := by
    intro p hp
    obtain ⟨d, hd, rfl⟩ := List.mem_map.mp hp
    simpa [SetCall.entry] using hkeyl d (List.mem_cons_of_mem _ hd)
  simp only [CardCache.set, hclean, if_pos hguard, hevict]
  rw [dictInsert_append_of_not_mem last.key _ _ habs2]
  simp [SetCall.entry]
  omega

/-- C2: inserting M+1 distinct keys (in time order, all within the TTL
window, with no intervening reads) into a fresh cache of max size M
performs exactly one eviction, evicting the key with the smallest
last-accessed time, which with no reads is the first key inserted; the
other M keys all remain present (the final store holds exactly the last
M inserts in order). -/
theorem cardCache_lru_eviction (T : ℚ) (M : Nat) (x : SetCall)
    (rest : List SetCall) (hM : 1 ≤ M) (hlen : rest.length = M)
    (hnd : ((x :: rest).map SetCall.key).Nodup)
    (hpw : (x :: rest).Pairwise (SetCall.windowed T)) :
    ((CardCache.empty T M).setMany (x :: rest)).evictions = 1 ∧
    ((CardCache.empty T M).setMany (x :: rest)).cache =
      rest.map (SetCall.entry T) ∧
    dictLookup x.key
        ((CardCache.empty T M).setMany (x :: rest)).cache = none := by
  rcases List.eq_nil_or_concat rest with hnil | ⟨mid, last, hconcat⟩
  · rw [hnil] at hlen
    simp at hlen
    omega
  · rw [List.concat_eq_append] at hconcat
    subst hconcat
    have hmidlen : mid.length + 1 = M := by simpa using hlen
    have hndshape := hnd
    rw [List.map_cons, List.map_append, List.map_singleton] at hndshape
    obtain ⟨hnd_xmid, hnd_midlast, hnd_xlast⟩ :=
      pairwise_shape (fun a b => a ≠ b) x.key last.key
        (mid.map SetCall.key) hndshape
    obtain ⟨hpw_xmid, hpw_midlast, hpw_xlast⟩ :=
      pairwise_shape (SetCall.windowed T) x last mid hpw
    have hwinx : ∀ d ∈ mid, SetCall.windowed T x d :=
      (List.pairwise_cons.mp hpw_xmid).1
    have hwinlast : ∀ d ∈ x :: mid, SetCall.windowed T d last := by
      intro d hd
      rcases List.mem_cons.mp hd with h1 | h1
      · rw [h1]; exact hpw_xlast
      · exact hpw_midlast d h1
    have hkeyl : ∀ d ∈ x :: mid, d.key ≠ last.key := by
      intro d hd
      rcases List.mem_cons.mp hd with h1 | h1
      · rw [h1]; exact hnd_xlast
      · exact hnd_midlast d.key (List.mem_map_of_mem SetCall.key h1)
    have hfill := setMany_fill T (x :: mid) [] (CardCache.empty T M)
      rfl rfl rfl
      (by simp only [List.nil_append, List.map_cons]; exact hnd_xmid)
      (by simp only [List.nil_append]; exact hpw_xmid)
      (by simp only [CardCache.empty, List.length_nil,
            List.length_cons]
          omega)
    have hc1 : (CardCache.empty T M).setMany (x :: mid) =
        { cache := (x :: mid).map (SetCall.entry T), ttl_seconds := T,
          max_size := M, hits := 0, misses := 0, evictions := 0,
          stats_size := M } := by
      rw [hfill]
      simp [CardCache.empty, hmidlen]
    have hsplit : (CardCache.empty T M).setMany (x :: (mid ++ [last])) =
        CardCache.set last.now last.key last.value
          ((CardCache.empty T M).setMany (x :: mid)) := by
      rw [← List.cons_append, CardCache.setMany_append]
      rfl
    have hfinal : (CardCache.empty T M).setMany (x :: (mid ++ [last])) =
        { cache := (mid ++ [last]).map (SetCall.entry T),
          ttl_seconds := T, max_size := M, hits := 0, misses := 0,
          evictions := 1, stats_size := M } := by
      rw [hsplit, hc1]
      exact set_evict_step T M x last mid hwinx hwinlast hkeyl hmidlen
    refine ⟨?_, ?_, ?_⟩
    · rw [hfinal]
    · rw [hfinal]
    · rw [hfinal]
      rw [dictLookup_eq_none_iff]
      intro p hp
      obtain ⟨d, hd, rfl⟩ := List.mem_map.mp hp
      rcases List.mem_append.mp hd with h1 | h1
      · have hxnotin := (List.pairwise_cons.mp hnd_xmid).1
        intro heq
        simp only [SetCall.entry] at heq
        exact hxnotin d.key (List.mem_map_of_mem SetCall.key h1) heq.symm
      · rw [List.mem_singleton.mp h1]
        simp only [SetCall.entry]
        intro heq
        exact hnd_xlast heq.symm

/-- Witness for cardCache_lru_eviction: three distinct keys inserted at
times 0, 1, 2 into a fresh cache of max size 2 with TTL 10 cause exactly
one eviction, of the first key, leaving the last two entries. -/
theorem cardCache_lru_eviction_witness :
    ((CardCache.empty 10 2).setMany
        [⟨"a", some 1, 0⟩, ⟨"b", some 2, 1⟩,
          ⟨"c", some 3, 2⟩]).evictions = 1 ∧
    ((CardCache.empty 10 2).setMany
        [⟨"a", some 1, 0⟩, ⟨"b", some 2, 1⟩, ⟨"c", some 3, 2⟩]).cache =
      [⟨"b", some 2, 1⟩, ⟨"c", some 3, 2⟩].map (SetCall.entry 10) ∧
    dictLookup "a"
        ((CardCache.empty 10 2).setMany
          [⟨"a", some 1, 0⟩, ⟨"b", some 2, 1⟩,
            ⟨"c", some 3, 2⟩]).cache = none :=
  cardCache_lru_eviction 10 2 ⟨"a", some 1, 0⟩
    [⟨"b", some 2, 1⟩, ⟨"c", some 3, 2⟩] (by norm_num) (by decide)
    (by decide) (by norm_num [List.pairwise_cons, SetCall.windowed])
